import Mathlib

/-
Verification of apt/package.py (python-apt): a shallow embedding of the
description formatter, the Version comparison operators, the dependency
listing, the changelog retrieval loop, fetch_binary and mark_delete.
Pure string processing is translated to functions on String and List Char;
the external apt_pkg collaborators (version comparison, problem resolver,
acquisition) are modelled explicitly where noted.
-/

/-- Split a character list at every occurrence of the separator, keeping
empty segments, mirroring Python str.split with an explicit separator. -/
def chSplit (sep : Char) : List Char → List (List Char)
  | [] => [[]]
  | c :: cs =>
    match chSplit sep cs with
    | [] => [[c]]
    | h :: t => if c = sep then [] :: h :: t else (c :: h) :: t

/-- Join character segments with a separator list between them. -/
def joinWith (sep : List Char) : List (List Char) → List Char
  | [] => []
  | [x] => x
  | x :: xs => x ++ sep ++ joinWith sep xs

/-- Strip leading and trailing whitespace, mirroring Python str.strip. -/
def chTrim (l : List Char) : List Char :=
  ((l.dropWhile Char.isWhitespace).reverse.dropWhile Char.isWhitespace).reverse

/-- Whether the accumulated text ends with a newline character. -/
def endsNewline (l : List Char) : Bool :=
  match l.getLast? with
  | some c => c == '\n'
  | none => false

/-- Concatenation of a list of strings in order. -/
def strConcat : List String → String
  | [] => ""
  | s :: rest => s ++ strConcat rest

/-- Version handle of package.py: the candidate token ID and the version
string, the only two fields its comparison operators read. -/
structure Version where
  ID : Nat
  version : String

/-- One step of the Version.description loop of package.py: fold the next
raw line into the accumulated description, applying the period separator
rule, the two-space verbatim rule and the one-space paragraph rule exactly
as in the source. -/
def descStep (desc raw : List Char) : List Char :=
  if chTrim raw = ['.'] then
    if endsNewline desc then desc else desc ++ ['\n', '\n']
  else if [' ', ' '].isPrefixOf raw then
    if endsNewline desc then desc ++ raw.drop 2 ++ ['\n']
    else desc ++ '\n' :: (raw.drop 2 ++ ['\n'])
  else if [' '].isPrefixOf raw then
    if endsNewline desc ∨ desc = [] then desc ++ raw.drop 1 else desc ++ raw
  else desc ++ raw

/-- Embedding of Version.description from package.py, taking the decoded
raw translated long-description field as input: drop the first line (the
summary duplicate) and fold the remaining lines with descStep. -/
def Version.description (dsc : String) : String :=
  String.mk (((chSplit '\n' dsc.data).tail).foldl descStep [])

/-- Modelled from the spec: the character weight of the alphanumeric and
punctuation aware comparison behind apt_pkg.VersionCompare, which lives
outside src (tilde sorts below everything, letters before non-letters). -/
def charOrd (c : Char) : Int :=
  if c = '~' then -1
  else if c.isAlpha then (c.toNat : Int)
  else (c.toNat : Int) + 256

/-- Numeric value of a run of decimal digit characters. -/
def natOfDigits (cs : List Char) : Nat :=
  cs.foldl (fun n c => n * 10 + (c.toNat - 48)) 0

/-- One alternating component of a version fragment: the weights of a
non-digit run followed by the value of a digit run. -/
abbrev Chunk := List Int × Nat

/-- Modelled from the spec: decomposition of a version fragment into
alternating non-digit and digit runs for apt_pkg.VersionCompare; the fuel
argument bounds the recursion and is instantiated with the input length. -/
def parseChunks : Nat → List Char → List Chunk
  | 0, _ => []
  | _ + 1, [] => []
  | fuel + 1, cs =>
    let nd := cs.takeWhile (fun c => !c.isDigit)
    let rest1 := cs.dropWhile (fun c => !c.isDigit)
    let ds := rest1.takeWhile Char.isDigit
    let rest2 := rest1.dropWhile Char.isDigit
    (nd.map charOrd, natOfDigits ds) :: parseChunks fuel rest2

/-- Three-valued comparison of integers. -/
def intCmp (a b : Int) : Ordering :=
  if a < b then .lt else if b < a then .gt else .eq

/-- Three-valued comparison of naturals. -/
def natCmp (a b : Nat) : Ordering :=
  if a < b then .lt else if b < a then .gt else .eq

/-- Comparison of the padding stream against a list: used when the left
version fragment is exhausted and the right still has components. -/
def padLexNil {α : Type} (cmp : α → α → Ordering) (pad : α) : List α → Ordering
  | [] => .eq
  | b :: bs => (cmp pad b).then (padLexNil cmp pad bs)

/-- Modelled from the spec: lexicographic comparison of component lists in
which the shorter list is padded with a neutral element, as in the Debian
fragment comparison where the end of one string is compared against the
remaining characters of the other. -/
def padLex {α : Type} (cmp : α → α → Ordering) (pad : α) : List α → List α → Ordering
  | [], bs => padLexNil cmp pad bs
  | a :: as, [] => (cmp a pad).then (padLex cmp pad as [])
  | a :: as, b :: bs => (cmp a b).then (padLex cmp pad as bs)

/-- Comparison of one alternating component: non-digit run first (padded
with weight 0, the weight of end of string), then the numeric run. -/
def chunkCmp (x y : Chunk) : Ordering :=
  (padLex intCmp 0 x.1 y.1).then (natCmp x.2 y.2)

/-- Comparison of whole version fragments as padded component lists. -/
def fragCmp (x y : List Chunk) : Ordering :=
  padLex chunkCmp ([], 0) x y

/-- Modelled from the spec: the epoch, upstream and revision parts of a
Debian version string, in comparison key form. -/
structure VerKey where
  epoch : Nat
  upstream : List Chunk
  revision : List Chunk

/-- Split a version at the last hyphen into upstream part and revision
(empty revision when no hyphen occurs). -/
def splitRev (cs : List Char) : List Char × List Char :=
  let r := cs.reverse
  if r.contains '-' then
    (((r.dropWhile (fun c => c != '-')).tail).reverse,
     (r.takeWhile (fun c => c != '-')).reverse)
  else (cs, [])

/-- Split off the numeric epoch before the first colon (epoch 0 when no
colon occurs). -/
def splitEpoch (cs : List Char) : Nat × List Char :=
  if cs.contains ':' then
    (natOfDigits (cs.takeWhile (fun c => c != ':')),
     (cs.dropWhile (fun c => c != ':')).tail)
  else (0, cs)

/-- Modelled from the spec: the comparison key of a version string for
apt_pkg.VersionCompare — epoch, then upstream, then revision. -/
def verKey (s : String) : VerKey :=
  let er := splitEpoch s.data
  let ur := splitRev er.2
  ⟨er.1, parseChunks (ur.1.length + 1) ur.1, parseChunks (ur.2.length + 1) ur.2⟩

/-- Comparison of version keys: epoch numerically, then upstream, then
revision. -/
def keyCmp (x y : VerKey) : Ordering :=
  (natCmp x.epoch y.epoch).then
    ((fragCmp x.upstream y.upstream).then (fragCmp x.revision y.revision))

/-- Modelled from the spec: apt_pkg.VersionCompare as a three-valued
comparison (the binding returns a signed integer; package.py only ever
uses its sign). -/
def debCompare (a b : String) : Ordering :=
  keyCmp (verKey a) (verKey b)

/-- Embedding of Version.__lt__ from package.py: compare the version
strings with the external Debian comparison. -/
def Version.lt (a b : Version) : Bool :=
  decide (debCompare a.version b.version = .lt)

/-- Embedding of Version.__gt__ from package.py. -/
def Version.gt (a b : Version) : Bool :=
  decide (debCompare a.version b.version = .gt)

/-- Embedding of Version.__eq__ from package.py: identity on the candidate
token ID, not on the version string. -/
def Version.eq (a b : Version) : Bool :=
  a.ID == b.ID

/-- Epoch stripping used for the changelog stop comparison in
get_changelog: Python split(":", 1)[1], the text after the first colon. -/
def stripEpochFirst (s : String) : String :=
  match chSplit ':' s.data with
  | [] => s
  | [_] => s
  | _ :: rest => String.mk (joinWith [':'] rest)

/-- Epoch stripping used for the URL substitution in get_changelog:
Python split(":") followed by joining every later part with the empty
string, which also deletes interior colons. -/
def urlStripEpoch (s : String) : String :=
  match chSplit ':' s.data with
  | [] => s
  | [_] => s
  | _ :: rest => String.mk (joinWith [] rest)

/-- Index of the last occurrence of a character in a list. -/
def lastIdxOf (c : Char) : List Char → Option Nat
  | [] => none
  | x :: xs =>
    match lastIdxOf c xs with
    | some i => some (i + 1)
    | none => if x = c then some 0 else none

/-- Embedding of the changelog header regular expression match of
get_changelog: a line matches when, after removing the trailing newline,
it starts with the escaped source package name, a space and an opening
parenthesis, and a closing parenthesis occurs later; the first group is
the greedy text up to the last closing parenthesis. -/
def matchHeader (src line : String) : Option String :=
  let body :=
    match line.data.getLast? with
    | some c => if c = '\n' then line.data.dropLast else line.data
    | none => line.data
  let pre := src.data ++ [' ', '(']
  if pre.isPrefixOf body then
    match lastIdxOf ')' (body.drop pre.length) with
    | some i => some (String.mk ((body.drop pre.length).take i))
    | none => none
  else none

/-- Embedding of the stop condition of the get_changelog read loop: with
an installed version present, strip the epoch from both sides and stop
when the changelog entry version does not compare strictly greater than
the installed version; a falsy stripped installed version never stops. -/
def stopCompare (installed : Option String) (changelog_ver : String) : Bool :=
  match installed with
  | none => false
  | some inst =>
    let inst2 := stripEpochFirst inst
    inst2 != "" && !(debCompare (stripEpochFirst changelog_ver) inst2 == .gt)

/-- One line of the network stream: decodable UTF-8 text or undecodable
bytes (which raise an uncaught decode error in the source). -/
inductive NetLine
  | ok (s : String)
  | bad
deriving DecidableEq

/-- Behaviour of the changelog connection: failure at open with an HTTP
error, failure with a connectivity error, or a stream of lines. -/
inductive NetResult
  | httpError
  | ioError
  | stream (lines : List NetLine)
deriving DecidableEq

/-- Exception escaping get_changelog uncaught (the decode error is a
ValueError, matched by none of the handlers in the source). -/
inductive Exn
  | unicodeDecodeError
deriving DecidableEq

/-- Outcome of the read loop: cancelled (returns the empty string), or an
accumulated changelog text. -/
inductive LoopResult
  | cancelled
  | acc (s : String)
deriving DecidableEq

/-- Prepend a line to the accumulated loop outcome; a cancellation deeper
in the loop discards all accumulated lines, as the early return does. -/
def prependLine (line : String) : LoopResult → LoopResult
  | .cancelled => .cancelled
  | .acc s => .acc (line ++ s)

/-- Embedding of the get_changelog read loop of package.py: poll the
cancel flag before each read, stop at end of stream, raise on undecodable
lines, break before appending a header line whose version compares less
than or equal to the installed version, and otherwise append the line. -/
def processLines (src : String) (installed : Option String) (cancel : Nat → Bool) :
    Nat → List NetLine → Except Exn LoopResult
  | i, [] => if cancel i then .ok .cancelled else .ok (.acc "")
  | i, l :: rest =>
    if cancel i then .ok .cancelled
    else
      match l with
      | .bad => .error .unicodeDecodeError
      | .ok line =>
        match matchHeader src line with
        | some ver =>
          if stopCompare installed ver then .ok (.acc "")
          else (processLines src installed cancel (i + 1) rest).map (prependLine line)
        | none => (processLines src installed cancel (i + 1) rest).map (prependLine line)

/-- Result of the fetch part of get_changelog before the memoization and
return step. -/
inductive FetchResult
  | cancelledEmpty
  | fetched (s : String)
  | httpMsg
  | ioMsg
deriving DecidableEq

/-- The localized not-available message of package.py (also returned for
an unrecognized origin and substituted for an empty changelog). -/
def NOT_AVAILABLE_MSG : String := "The list of changes is not available"

/-- The localized message returned on an HTTP error, with the source
package and source version substituted into the web link. -/
def httpErrorMsg (src_pkg src_ver : String) : String :=
  "The list of changes is not available yet.\n\nPlease use http://launchpad.net/ubuntu/+source/"
    ++ src_pkg ++ "/" ++ src_ver
    ++ "/+changelog\nuntil the changes become available or try again later."

/-- The localized message returned on a connectivity failure. -/
def IO_ERROR_MSG : String :=
  "Failed to download the list of changes. \nPlease check your Internet connection."

/-- Embedding of the body of the inner try block of get_changelog: check
the cancel flag before opening the connection, translate open failures to
their handler results, run the read loop, and substitute the localized
message for an empty accumulated changelog. -/
def fetchChangelog (src : String) (installed : Option String) (cancel : Nat → Bool)
    (net : NetResult) : Except Exn FetchResult :=
  if cancel 0 then .ok .cancelledEmpty
  else
    match net with
    | .httpError => .ok .httpMsg
    | .ioError => .ok .ioMsg
    | .stream lines =>
      (processLines src installed cancel 1 lines).map fun r =>
        match r with
        | .cancelled => .cancelledEmpty
        | .acc s => .fetched (if s = "" then NOT_AVAILABLE_MSG else s)

/-- The per-Package state read and written by get_changelog: the memoized
changelog text (empty when absent) and the process-global socket default
timeout, modelled as an integer value. -/
structure PkgState where
  changelog : String
  timeout : Int
deriving DecidableEq

/-- Translation of the finally block and the tail of get_changelog: every
branch restores the saved timeout; only a successful fetch writes the
memoization cache and the cancellation branches return the empty string
without memoizing. -/
def applyFetchResult (src sv : String) (saved : Int) (st2 : PkgState) :
    Except Exn FetchResult → Except Exn String × PkgState
  | .error e => (.error e, ⟨st2.changelog, saved⟩)
  | .ok .cancelledEmpty => (.ok "", ⟨st2.changelog, saved⟩)
  | .ok (.fetched s) => (.ok s, ⟨s, saved⟩)
  | .ok .httpMsg => (.ok (httpErrorMsg src sv), ⟨st2.changelog, saved⟩)
  | .ok .ioMsg => (.ok IO_ERROR_MSG, ⟨st2.changelog, saved⟩)

/-- Embedding of Package.get_changelog from package.py: return the cached
changelog when present; return the not-available message for an
unrecognized origin without touching the timeout; otherwise save the
socket default timeout, set it to 2 for the fetch, and route every exit
of the fetch — normal, cancelled, error or exception — through the
restore of the saved timeout. -/
def get_changelog (st : PkgState) (originKnown : Bool) (src sv : String)
    (installed : Option String) (cancel : Nat → Bool) (net : NetResult) :
    Except Exn String × PkgState :=
  if st.changelog ≠ "" then (.ok st.changelog, st)
  else if originKnown then
    applyFetchResult src sv st.timeout ⟨st.changelog, 2⟩
      (fetchChangelog src installed cancel net)
  else (.ok NOT_AVAILABLE_MSG, st)

/-- A file on disk as far as _file_is_same observes it: its size and the
MD5 digest of its content (the external apt_pkg.md5sum is modelled by
storing the digest). -/
structure FileData where
  size : Nat
  md5 : String
deriving DecidableEq

/-- Embedding of os.path.join for the two-argument uses in package.py. -/
def joinPath (d b : String) : String :=
  if d = "" then b else d ++ "/" ++ b

/-- Embedding of os.path.basename: the last slash-separated segment. -/
def basename (p : String) : String :=
  String.mk ((chSplit '/' p.data).getLastD p.data)

/-- Embedding of _file_is_same from package.py: the path exists and has
the expected size and the expected MD5 digest. -/
def file_is_same (fs : String → Option FileData) (path : String) (size : Nat)
    (md5 : String) : Bool :=
  match fs path with
  | some f => f.size == size && f.md5 == md5
  | none => false

/-- Embedding of Version.fetch_binary from package.py: when the
destination file is already the same, print a notice and execute a bare
return (Python None) without any acquisition; otherwise run the acquire
step, raising on failure and returning the absolute destination path on
success. The boolean records whether the network acquire step ran. -/
def fetch_binary (fs : String → Option FileData) (acquireOk : Bool)
    (abspath : String → String) (destdir fileName : String) (size : Nat)
    (md5 : String) : Except String (Option String) × Bool :=
  let destfile := joinPath destdir (basename fileName)
  if file_is_same fs destfile size md5 then (.ok none, false)
  else if acquireOk then (.ok (some (abspath destfile)), true)
  else (.error "FetchError", true)

/-- Modelled from the spec: the external problem resolver invoked by the
auto-fix block; its failure signalling convention is outside src, so both
conventions are represented — a failure reported through the return value
and a failure raised as an exception (the apt_pkg binding convention the
module self-test anticipates by catching SystemError). -/
inductive ResolverOutcome
  | success
  | failureReturned
  | failureRaised
deriving DecidableEq

/-- Modelled from the spec: the resolver step as mark_delete observes it;
the source never inspects a return value, so a returned failure is
indistinguishable from success there, while a raised failure surfaces as
an exception. -/
def resolveStep : ResolverOutcome → Except String Unit
  | .success => .ok ()
  | .failureReturned => .ok ()
  | .failureRaised => .error "SystemError: E:Unable to correct problems"

/-- Embedding of Package.mark_delete from package.py: after the external
MarkDelete, when auto_fix is set and the broken count is positive the
resolver step runs with no surrounding exception handler, so whatever it
raises propagates; otherwise the call returns normally. -/
def mark_delete (auto_fix purge : Bool) (brokenCount : Nat)
    (resolver : ResolverOutcome) : Except String Unit :=
  if auto_fix = true ∧ 0 < brokenCount then resolveStep resolver else .ok ()

/-- One dependency target as read from the external DependsList:
target package name, comparison operator and target version. -/
structure DepData where
  name : String
  compType : String
  targetVer : String
deriving DecidableEq

/-- Embedding of BaseDependency from package.py. -/
structure BaseDependency where
  name : String
  relation : String
  version : String
  pre_depend : Bool
deriving DecidableEq

/-- Embedding of Dependency from package.py: one Or-group. -/
structure Dependency where
  or_dependencies : List BaseDependency
deriving DecidableEq

/-- The inner loop of Version.dependencies: turn one Or-group of the
DependsList into a Dependency, with pre_depend set exactly when the key
being processed is the PreDepends key. -/
def mkDepGroup (t : String) (g : List DepData) : Dependency :=
  ⟨g.map (fun d => ⟨d.name, d.compType, d.targetVer, t == "PreDepends"⟩)⟩

/-- The Or-groups stored under one key of the DependsList; a missing key
raises KeyError in the source, which the loop swallows, so it contributes
no groups. -/
def optGroups (o : Option (List (List DepData))) : List (List DepData) :=
  o.getD []

/-- Embedding of Version.dependencies from package.py: fold over the two
keys in source order, PreDepends first, appending the groups of each
present key. -/
def dependencies (dl : String → Option (List (List DepData))) : List Dependency :=
  ["PreDepends", "Depends"].foldl
    (fun acc t =>
      match dl t with
      | some groups => acc ++ groups.map (mkDepGroup t)
      | none => acc) []

/-- A concrete DependsList with one pre-dependency group and one ordinary
dependency group, used to instantiate the dependency ordering theorem. -/
def dlEx : String → Option (List (List DepData)) :=
  fun t =>
    if t = "PreDepends" then some [[⟨"libc6", ">=", "2.4"⟩]]
    else if t = "Depends" then some [[⟨"debconf", "", ""⟩]] else none

/-- A concrete filesystem containing exactly the already-downloaded
package file with matching size and digest. -/
def fsC4 : String → Option FileData :=
  fun p => if p = "foo_1.0_all.deb" then some ⟨100, "0123abcd"⟩ else none

/-- Exactly one of three statements holds. -/
abbrev exactlyOne (p q r : Prop) : Prop :=
  (p ∧ ¬q ∧ ¬r) ∨ (¬p ∧ q ∧ ¬r) ∨ (¬p ∧ ¬q ∧ r)

/-- The laws a three-valued comparison needs for the order facts used
below: swapping arguments swaps the result, an equal pair is
substitutable on the left, and strict ordering is transitive. -/
structure CmpLaws {α : Type} (cmp : α → α → Ordering) : Prop where
  symm : ∀ a b, cmp a b = (cmp b a).swap
  subst : ∀ a b c, cmp a b = .eq → cmp a c = cmp b c
  lt_trans : ∀ a b c, cmp a b = .lt → cmp b c = .lt → cmp a c = .lt

/- Order theory for three-valued comparisons. -/

theorem ordSwapEqLt (o : Ordering) : o.swap = .lt ↔ o = .gt := by
  cases o <;> simp [Ordering.swap]

theorem ordSwapEqEq (o : Ordering) : o.swap = .eq ↔ o = .eq := by
  cases o <;> simp [Ordering.swap]

theorem ordThenEqEq (x y : Ordering) : x.then y = .eq ↔ (x = .eq ∧ y = .eq) := by
  cases x <;> cases y <;> simp [Ordering.then]

theorem ordThenEqLt (x y : Ordering) : x.then y = .lt ↔ (x = .lt ∨ (x = .eq ∧ y = .lt)) := by
  cases x <;> cases y <;> simp [Ordering.then]

theorem ordSwapThen (x y : Ordering) : (x.then y).swap = x.swap.then y.swap := by
  cases x <;> cases y <;> rfl

theorem CmpLaws.cmpRefl {α : Type} {cmp : α → α → Ordering} (L : CmpLaws cmp) (a : α) :
    cmp a a = .eq := by
  have h := L.symm a a
  cases hc : cmp a a
  · rw [hc] at h; exact absurd h (by decide)
  · rfl
  · rw [hc] at h; exact absurd h (by decide)

theorem CmpLaws.substR {α : Type} {cmp : α → α → Ordering} (L : CmpLaws cmp) :
    ∀ a b c : α, cmp b c = .eq → cmp a b = cmp a c := by
  intro a b c h
  have h2 : cmp b a = cmp c a := L.subst b c a h
  rw [L.symm a b, L.symm a c, h2]

theorem CmpLaws.gtTrans {α : Type} {cmp : α → α → Ordering} (L : CmpLaws cmp) :
    ∀ a b c : α, cmp a b = .gt → cmp b c = .gt → cmp a c = .gt := by
  intro a b c h1 h2
  have hb : cmp b a = .lt := by rw [L.symm b a, h1]; rfl
  have hc : cmp c b = .lt := by rw [L.symm c b, h2]; rfl
  have hca := L.lt_trans c b a hc hb
  rw [L.symm a c, hca]; rfl

theorem cmpLawsComap {α β : Type} {cmp : α → α → Ordering} (f : β → α) (L : CmpLaws cmp) :
    CmpLaws (fun x y => cmp (f x) (f y)) := by
  constructor
  · intro a b; exact L.symm (f a) (f b)
  · intro a b c h; exact L.subst (f a) (f b) (f c) h
  · intro a b c h1 h2; exact L.lt_trans (f a) (f b) (f c) h1 h2

theorem cmpLawsThen {α : Type} {c1 c2 : α → α → Ordering} (L1 : CmpLaws c1) (L2 : CmpLaws c2) :
    CmpLaws (fun a b => (c1 a b).then (c2 a b)) := by
  constructor
  · intro a b
    rw [L1.symm a b, L2.symm a b, ordSwapThen]
  · intro a b c h
    rw [ordThenEqEq] at h
    rw [L1.subst a b c h.1, L2.subst a b c h.2]
  · intro a b c h1 h2
    rw [ordThenEqLt] at h1 h2 ⊢
    rcases h1 with h1 | ⟨h1, h1b⟩ <;> rcases h2 with h2 | ⟨h2, h2b⟩
    · exact Or.inl (L1.lt_trans a b c h1 h2)
    · exact Or.inl (by rw [← L1.substR a b c h2]; exact h1)
    · exact Or.inl (by rw [L1.subst a b c h1]; exact h2)
    · exact Or.inr ⟨by rw [L1.subst a b c h1]; exact h2, L2.lt_trans a b c h1b h2b⟩

theorem cmpLawsCongr {α : Type} {c1 c2 : α → α → Ordering}
    (h : ∀ a b, c1 a b = c2 a b) (L : CmpLaws c1) : CmpLaws c2 := by
  constructor
  · intro a b; rw [← h, ← h]; exact L.symm a b
  · intro a b c hh; rw [← h, ← h]; exact L.subst a b c (by rw [h]; exact hh)
  · intro a b c u v
    rw [← h]; exact L.lt_trans a b c (by rw [h]; exact u) (by rw [h]; exact v)

theorem padLexNilNil {α : Type} (cmp : α → α → Ordering) (pad : α) :
    padLex cmp pad [] [] = .eq := rfl

theorem padLexNilCons {α : Type} (cmp : α → α → Ordering) (pad : α) (b : α) (bs : List α) :
    padLex cmp pad [] (b :: bs) = (cmp pad b).then (padLex cmp pad [] bs) := rfl

theorem padLexConsNil {α : Type} (cmp : α → α → Ordering) (pad : α) (a : α) (as : List α) :
    padLex cmp pad (a :: as) [] = (cmp a pad).then (padLex cmp pad as []) := rfl

theorem padLexConsCons {α : Type} (cmp : α → α → Ordering) (pad : α) (a b : α)
    (as bs : List α) :
    padLex cmp pad (a :: as) (b :: bs) = (cmp a b).then (padLex cmp pad as bs) := rfl

theorem padLexSymm {α : Type} {cmp : α → α → Ordering} (L : CmpLaws cmp) (pad : α) :
    ∀ a b : List α, padLex cmp pad a b = (padLex cmp pad b a).swap := by
  intro a
  induction a with
  | nil =>
    intro b
    induction b with
    | nil => rfl
    | cons y ys ih =>
      rw [padLexNilCons, padLexConsNil, ordSwapThen, ← ih, L.symm pad y]
  | cons x xs ihx =>
    intro b
    cases b with
    | nil =>
      rw [padLexConsNil, padLexNilCons, ordSwapThen, ihx [], L.symm x pad]
    | cons y ys =>
      rw [padLexConsCons, padLexConsCons, ordSwapThen, ihx ys, L.symm x y]

theorem padLexLtStep {α : Type} {cmp : α → α → Ordering} (L : CmpLaws cmp)
    {x1 x2 x3 : α} {r1 r2 r3 : Ordering}
    (hr : r1 = .lt → r2 = .lt → r3 = .lt)
    (h1 : (cmp x1 x2).then r1 = .lt) (h2 : (cmp x2 x3).then r2 = .lt) :
    (cmp x1 x3).then r3 = .lt := by
  rw [ordThenEqLt] at h1 h2 ⊢
  rcases h1 with h1 | ⟨h1, h1b⟩ <;> rcases h2 with h2 | ⟨h2, h2b⟩
  · exact Or.inl (L.lt_trans x1 x2 x3 h1 h2)
  · exact Or.inl (by rw [← L.substR x1 x2 x3 h2]; exact h1)
  · exact Or.inl (by rw [L.subst x1 x2 x3 h1]; exact h2)
  · exact Or.inr ⟨by rw [L.subst x1 x2 x3 h1]; exact h2, hr h1b h2b⟩

theorem padLexSubstAux {α : Type} {cmp : α → α → Ordering} (L : CmpLaws cmp) (pad : α) :
    ∀ n : Nat, ∀ a b c : List α, a.length + b.length + c.length ≤ n →
      padLex cmp pad a b = .eq → padLex cmp pad a c = padLex cmp pad b c := by
  intro n
  induction n with
  | zero =>
    intro a b c hn h
    cases a with
    | nil =>
      cases b with
      | nil => rfl
      | cons y ys =>
        exact absurd hn (by simp only [List.length_cons, List.length_nil]; omega)
    | cons x xs =>
      exact absurd hn (by simp only [List.length_cons]; omega)
  | succ n ih =>
    intro a b c hn h
    cases a with
    | nil =>
      cases b with
      | nil => rfl
      | cons y ys =>
        rw [padLexNilCons, ordThenEqEq] at h
        cases c with
        | nil =>
          rw [padLexNilNil, padLexConsNil]
          have hcy : cmp y pad = .eq := by rw [L.symm y pad, h.1]; rfl
          have hrest : padLex cmp pad ys [] = .eq := by
            rw [padLexSymm L pad ys [], h.2]; rfl
          rw [(ordThenEqEq (cmp y pad) (padLex cmp pad ys [])).mpr ⟨hcy, hrest⟩]
        | cons z zs =>
          rw [padLexNilCons, padLexConsCons]
          rw [L.subst pad y z h.1,
            ih [] ys zs (by simp only [List.length_cons, List.length_nil] at hn ⊢; omega) h.2]
    | cons x xs =>
      cases b with
      | nil =>
        cases c with
        | nil => rw [padLexNilNil]; exact h
        | cons z zs =>
          rw [padLexConsNil, ordThenEqEq] at h
          rw [padLexConsCons, padLexNilCons]
          rw [L.subst x pad z h.1,
            ih xs [] zs (by simp only [List.length_cons, List.length_nil] at hn ⊢; omega) h.2]
      | cons y ys =>
        rw [padLexConsCons, ordThenEqEq] at h
        cases c with
        | nil =>
          rw [padLexConsNil, padLexConsNil]
          rw [L.subst x y pad h.1,
            ih xs ys [] (by simp only [List.length_cons, List.length_nil] at hn ⊢; omega) h.2]
        | cons z zs =>
          rw [padLexConsCons, padLexConsCons]
          rw [L.subst x y z h.1,
            ih xs ys zs (by simp only [List.length_cons] at hn ⊢; omega) h.2]

theorem padLexLtTransAux {α : Type} {cmp : α → α → Ordering} (L : CmpLaws cmp) (pad : α) :
    ∀ n : Nat, ∀ a b c : List α, a.length + b.length + c.length ≤ n →
      padLex cmp pad a b = .lt → padLex cmp pad b c = .lt → padLex cmp pad a c = .lt := by
  intro n
  induction n with
  | zero =>
    intro a b c hn h1 h2
    cases a with
    | nil =>
      cases b with
      | nil => rw [padLexNilNil] at h1; exact absurd h1 (by decide)
      | cons y ys =>
        exact absurd hn (by simp only [List.length_cons, List.length_nil]; omega)
    | cons x xs =>
      exact absurd hn (by simp only [List.length_cons]; omega)
  | succ n ih =>
    intro a b c hn h1 h2
    cases a with
    | nil =>
      cases b with
      | nil => rw [padLexNilNil] at h1; exact absurd h1 (by decide)
      | cons y ys =>
        cases c with
        | nil =>
          rw [padLexSymm L pad (y :: ys) [], h1] at h2
          exact absurd h2 (by decide)
        | cons z zs =>
          rw [padLexNilCons] at h1 ⊢
          rw [padLexConsCons] at h2
          exact padLexLtStep L
            (ih [] ys zs (by simp only [List.length_cons, List.length_nil] at hn ⊢; omega))
            h1 h2
    | cons x xs =>
      cases b with
      | nil =>
        cases c with
        | nil => rw [padLexNilNil] at h2; exact absurd h2 (by decide)
        | cons z zs =>
          rw [padLexConsNil] at h1
          rw [padLexNilCons] at h2
          rw [padLexConsCons]
          exact padLexLtStep L
            (ih xs [] zs (by simp only [List.length_cons, List.length_nil] at hn ⊢; omega))
            h1 h2
      | cons y ys =>
        cases c with
        | nil =>
          rw [padLexConsCons] at h1
          rw [padLexConsNil] at h2 ⊢
          exact padLexLtStep L
            (ih xs ys [] (by simp only [List.length_cons, List.length_nil] at hn ⊢; omega))
            h1 h2
        | cons z zs =>
          rw [padLexConsCons] at h1 h2 ⊢
          exact padLexLtStep L
            (ih xs ys zs (by simp only [List.length_cons] at hn ⊢; omega))
            h1 h2

theorem cmpLawsPadLex {α : Type} {cmp : α → α → Ordering} (pad : α) (L : CmpLaws cmp) :
    CmpLaws (padLex cmp pad) := by
  constructor
  · exact padLexSymm L pad
  · intro a b c h
    exact padLexSubstAux L pad (a.length + b.length + c.length) a b c le_rfl h
  · intro a b c h1 h2
    exact padLexLtTransAux L pad (a.length + b.length + c.length) a b c le_rfl h1 h2

theorem intCmpLaws : CmpLaws intCmp := by
  constructor
  · intro a b
    unfold intCmp Ordering.swap
    split_ifs <;> first | rfl | (exfalso; omega)
  · intro a b c h
    have hab : a = b := by
      unfold intCmp at h
      split_ifs at h with h1 h2
      omega
    rw [hab]
  · intro a b c h1 h2
    have hab : a < b := by
      unfold intCmp at h1
      split_ifs at h1 with ha hb
      exact ha
    have hbc : b < c := by
      unfold intCmp at h2
      split_ifs at h2 with ha hb
      exact ha
    unfold intCmp
    rw [if_pos (show a < c by omega)]

theorem natCmpLaws : CmpLaws natCmp := by
  constructor
  · intro a b
    unfold natCmp Ordering.swap
    split_ifs <;> first | rfl | (exfalso; omega)
  · intro a b c h
    have hab : a = b := by
      unfold natCmp at h
      split_ifs at h with h1 h2
      omega
    rw [hab]
  · intro a b c h1 h2
    have hab : a < b := by
      unfold natCmp at h1
      split_ifs at h1 with ha hb
      exact ha
    have hbc : b < c := by
      unfold natCmp at h2
      split_ifs at h2 with ha hb
      exact ha
    unfold natCmp
    rw [if_pos (show a < c by omega)]

theorem chunkCmpLaws : CmpLaws chunkCmp := by
  have h1 : CmpLaws (fun x y : Chunk => padLex intCmp 0 x.1 y.1) :=
    cmpLawsComap Prod.fst (cmpLawsPadLex 0 intCmpLaws)
  have h2 : CmpLaws (fun x y : Chunk => natCmp x.2 y.2) :=
    cmpLawsComap Prod.snd natCmpLaws
  exact cmpLawsCongr (fun _ _ => rfl) (cmpLawsThen h1 h2)

theorem fragCmpLaws : CmpLaws fragCmp :=
  cmpLawsCongr (fun _ _ => rfl) (cmpLawsPadLex ([], 0) chunkCmpLaws)

theorem keyCmpLaws : CmpLaws keyCmp := by
  have he : CmpLaws (fun x y : VerKey => natCmp x.epoch y.epoch) :=
    cmpLawsComap VerKey.epoch natCmpLaws
  have hu : CmpLaws (fun x y : VerKey => fragCmp x.upstream y.upstream) :=
    cmpLawsComap VerKey.upstream fragCmpLaws
  have hr : CmpLaws (fun x y : VerKey => fragCmp x.revision y.revision) :=
    cmpLawsComap VerKey.revision fragCmpLaws
  exact cmpLawsCongr (fun _ _ => rfl) (cmpLawsThen he (cmpLawsThen hu hr))

theorem debCompareLaws : CmpLaws debCompare :=
  cmpLawsCongr (fun _ _ => rfl) (cmpLawsComap verKey keyCmpLaws)

/- Claim theorems. -/

/-- Claim C1: Version.description drops the first line of the raw
translated long-description field and applies the period, verbatim and
paragraph line rules, so that the fixed input yields exactly the expected
formatted text. -/
theorem description_formats_fixed_input :
    Version.description "Short.\n Para one.\n .\n  verbatim line\n More para."
      = "Para one.\n\nverbatim line\nMore para." := by rfl

/-- Claim C2 (amended): the comparison operators of Version are each
transitive, and for every pair exactly one of less-than,
version-comparison-equal, greater-than holds; trichotomy with __eq__ in
the middle position fails, because __eq__ is identity on the candidate
token ID while the strict orders compare version strings, and two
distinct tokens can share a version string. -/
theorem version_order_amended :
    (∀ a b : Version,
        exactlyOne (a.lt b = true) (debCompare a.version b.version = .eq) (a.gt b = true))
    ∧ (∀ a b c : Version, a.lt b = true → b.lt c = true → a.lt c = true)
    ∧ (∀ a b c : Version, a.gt b = true → b.gt c = true → a.gt c = true)
    ∧ (∀ a b c : Version, a.eq b = true → b.eq c = true → a.eq c = true) := by
  refine ⟨?_, ?_, ?_, ?_⟩
  · intro a b
    cases h : debCompare a.version b.version
    · exact Or.inl (by simp [Version.lt, Version.gt, h])
    · exact Or.inr (Or.inl (by simp [Version.lt, Version.gt, h]))
    · exact Or.inr (Or.inr (by simp [Version.lt, Version.gt, h]))
  · intro a b c h1 h2
    simp only [Version.lt, decide_eq_true_eq] at h1 h2 ⊢
    exact debCompareLaws.lt_trans a.version b.version c.version h1 h2
  · intro a b c h1 h2
    simp only [Version.gt, decide_eq_true_eq] at h1 h2 ⊢
    exact debCompareLaws.gtTrans a.version b.version c.version h1 h2
  · intro a b c h1 h2
    simp only [Version.eq, beq_iff_eq] at h1 h2 ⊢
    omega

/-- Claim C2 witness: transitivity of the strict order applied at three
concrete versions. -/
theorem version_order_amended_witness :
    Version.lt ⟨0, "1.0"⟩ ⟨0, "1.2"⟩ = true :=
  version_order_amended.2.1 ⟨0, "1.0"⟩ ⟨0, "1.1"⟩ ⟨0, "1.2"⟩ (by decide) (by decide)

/-- Claim C2 counterexample: two distinct candidate tokens carrying the
same version string satisfy none of less-than, token equality and
greater-than, so exactly-one fails for the triple the claim states. -/
theorem version_trichotomy_counterexample :
    Version.lt ⟨1, "1.0"⟩ ⟨2, "1.0"⟩ = false
    ∧ Version.eq ⟨1, "1.0"⟩ ⟨2, "1.0"⟩ = false
    ∧ Version.gt ⟨1, "1.0"⟩ ⟨2, "1.0"⟩ = false
    ∧ ¬ exactlyOne (Version.lt ⟨1, "1.0"⟩ ⟨2, "1.0"⟩ = true)
        (Version.eq ⟨1, "1.0"⟩ ⟨2, "1.0"⟩ = true)
        (Version.gt ⟨1, "1.0"⟩ ⟨2, "1.0"⟩ = true) := by decide

/-- Claim C3: with installed version 1.0 and a stream containing entries
for 1.2, 1.1, 1.0 and 0.9 in that order, get_changelog accumulates
exactly the 1.2 and 1.1 entries and stops at the 1.0 header without
including it. -/
theorem changelog_stops_at_installed :
    get_changelog ⟨"", 30⟩ true "foo" "1.2" (some "1.0") (fun _ => false)
      (.stream [.ok "foo (1.2) unstable; urgency=low\n", .ok "  * change A\n", .ok "\n",
                .ok "foo (1.1) unstable; urgency=low\n", .ok "  * change B\n", .ok "\n",
                .ok "foo (1.0) unstable; urgency=low\n", .ok "  * change C\n",
                .ok "foo (0.9) unstable; urgency=low\n"])
      = (.ok ("foo (1.2) unstable; urgency=low\n  * change A\n\n"
              ++ "foo (1.1) unstable; urgency=low\n  * change B\n\n"),
         ⟨"foo (1.2) unstable; urgency=low\n  * change A\n\n"
              ++ "foo (1.1) unstable; urgency=low\n  * change B\n\n", 30⟩) := by rfl

/-- Claim C4 (code bug evaluation): when the destination file already
exists with the correct size and MD5 digest, fetch_binary performs no
acquisition but returns Python None (a bare return), not the path of the
existing file; the second conjunct shows the path the download branch
returns for the same arguments. -/
theorem fetch_binary_short_circuit_returns_none :
    fetch_binary fsC4 true (fun s => "/cwd/" ++ s) "" "pool/main/f/foo/foo_1.0_all.deb"
        100 "0123abcd"
      = (.ok none, false)
    ∧ fetch_binary (fun _ => none) true (fun s => "/cwd/" ++ s) ""
        "pool/main/f/foo/foo_1.0_all.deb" 100 "0123abcd"
      = (.ok (some "/cwd/foo_1.0_all.deb"), true) := ⟨rfl, rfl⟩

/-- Claim C5 counterexample: with auto_fix set and a positive broken
count, a problem-resolver failure raised as an exception propagates out of
mark_delete, so the call does not return normally. -/
theorem mark_delete_resolver_counterexample :
    mark_delete true false 1 .failureRaised
      = .error "SystemError: E:Unable to correct problems" := rfl

/-- Claim C5 (amended): mark_delete installs no exception handler around
the resolver step, so a resolver failure reported through the return value
is ignored and the call returns normally, while a resolver failure raised
as an exception propagates to the caller; without auto_fix the resolver
never runs and the call returns normally. -/
theorem mark_delete_resolver_amended :
    ∀ (purge : Bool) (n : Nat),
      mark_delete true purge (n + 1) .failureReturned = .ok ()
      ∧ mark_delete true purge (n + 1) .failureRaised
          = .error "SystemError: E:Unable to correct problems"
      ∧ (∀ r : ResolverOutcome, mark_delete false purge (n + 1) r = .ok ()) := by
  intro purge n
  refine ⟨?_, ?_, ?_⟩
  · unfold mark_delete
    rw [if_pos ⟨rfl, Nat.succ_pos n⟩]
    rfl
  · unfold mark_delete
    rw [if_pos ⟨rfl, Nat.succ_pos n⟩]
    rfl
  · intro r
    unfold mark_delete
    rw [if_neg (by simp)]

/-- Claim C6: get_changelog saves the socket default timeout and restores
it on every exit path — cached return, unrecognized origin, cancellation,
HTTP or connectivity failure, uncaught decode exception and normal
completion — so the timeout after any call equals the timeout before. -/
theorem changelog_timeout_restored :
    ∀ (st : PkgState) (originKnown : Bool) (src sv : String) (inst : Option String)
      (cancel : Nat → Bool) (net : NetResult),
      (get_changelog st originKnown src sv inst cancel net).2.timeout = st.timeout := by
  intro st originKnown src sv inst cancel net
  unfold get_changelog
  split
  · rfl
  · split
    · cases h : fetchChangelog src inst cancel net with
      | error e => rw [applyFetchResult]
      | ok fr => cases fr <;> rw [applyFetchResult]
    · rfl

/-- Claim C7: when the cancellation flag is set before any changelog line
is read — at the poll before opening the connection, or at the poll before
the first line read of a stream — get_changelog returns the empty string
and leaves the memoization cache empty, so a second call without
cancellation behaves exactly like a fresh fetch from the initial state. -/
theorem changelog_cancel_not_memoized :
    ∀ (t : Int) (src sv : String) (inst : Option String) (cancel : Nat → Bool)
      (net : NetResult),
      (cancel 0 = true ∨ (cancel 1 = true ∧ ∃ ls, net = .stream ls)) →
      get_changelog ⟨"", t⟩ true src sv inst cancel net = (.ok "", ⟨"", t⟩)
      ∧ get_changelog (get_changelog ⟨"", t⟩ true src sv inst cancel net).2 true src sv
          inst (fun _ => false) net
        = get_changelog ⟨"", t⟩ true src sv inst (fun _ => false) net := by
  intro t src sv inst cancel net h
  have hfetch : fetchChangelog src inst cancel net = .ok .cancelledEmpty := by
    rcases h with h0 | ⟨h1, ls, hnet⟩
    · unfold fetchChangelog
      rw [if_pos h0]
    · subst hnet
      unfold fetchChangelog
      cases h0 : cancel 0
      · rw [if_neg (by simp [h0])]
        have hproc : processLines src inst cancel 1 ls = .ok .cancelled := by
          cases ls with
          | nil => unfold processLines; rw [if_pos h1]
          | cons l rest => unfold processLines; rw [if_pos h1]
        show (processLines src inst cancel 1 ls).map _ = _
        rw [hproc]
        rfl
      · rfl
  have hmain : get_changelog ⟨"", t⟩ true src sv inst cancel net = (.ok "", ⟨"", t⟩) := by
    unfold get_changelog
    rw [if_neg (by simp), if_pos rfl, hfetch]
    rfl
  exact ⟨hmain, by rw [hmain]⟩

/-- Claim C7 witness: the theorem applied with a cancellation flag that is
already set at the first poll and an HTTP-failing connection. -/
theorem changelog_cancel_not_memoized_witness :
    get_changelog ⟨"", 5⟩ true "foo" "1.0" none (fun _ => true) .httpError
      = (.ok "", ⟨"", 5⟩)
    ∧ get_changelog (get_changelog ⟨"", 5⟩ true "foo" "1.0" none (fun _ => true) .httpError).2
        true "foo" "1.0" none (fun _ => false) .httpError
      = get_changelog ⟨"", 5⟩ true "foo" "1.0" none (fun _ => false) .httpError :=
  changelog_cancel_not_memoized 5 "foo" "1.0" none (fun _ => true) .httpError (Or.inl rfl)

/-- Claim C8: Version.dependencies reports the PreDepends Or-groups
before the Depends Or-groups, every BaseDependency in a PreDepends group
has pre_depend true, and every BaseDependency in a Depends group has
pre_depend false. -/
theorem dependencies_pre_before_depends :
    ∀ dl : String → Option (List (List DepData)),
      dependencies dl
        = (optGroups (dl "PreDepends")).map (mkDepGroup "PreDepends")
          ++ (optGroups (dl "Depends")).map (mkDepGroup "Depends")
      ∧ (∀ d, d ∈ (optGroups (dl "PreDepends")).map (mkDepGroup "PreDepends") →
          ∀ b, b ∈ d.or_dependencies → b.pre_depend = true)
      ∧ (∀ d, d ∈ (optGroups (dl "Depends")).map (mkDepGroup "Depends") →
          ∀ b, b ∈ d.or_dependencies → b.pre_depend = false) := by
  intro dl
  refine ⟨?_, ?_, ?_⟩
  · unfold dependencies optGroups
    cases hp : dl "PreDepends" <;> cases hd : dl "Depends" <;>
      simp [List.foldl_cons, List.foldl_nil, hp, hd, Option.getD]
  · intro d hd b hb
    rcases List.mem_map.mp hd with ⟨g, hg, rfl⟩
    rcases List.mem_map.mp hb with ⟨dd, hdd, rfl⟩
    rfl
  · intro d hd b hb
    rcases List.mem_map.mp hd with ⟨g, hg, rfl⟩
    rcases List.mem_map.mp hb with ⟨dd, hdd, rfl⟩
    rfl

/-- Claim C8 witness: the theorem applied to a concrete DependsList with
one pre-dependency group and one ordinary group. -/
theorem dependencies_pre_before_depends_witness :
    (BaseDependency.mk "libc6" ">=" "2.4" true).pre_depend = true :=
  (dependencies_pre_before_depends dlEx).2.1
    (mkDepGroup "PreDepends" [⟨"libc6", ">=", "2.4"⟩]) (by decide)
    (BaseDependency.mk "libc6" ">=" "2.4" true) (by decide)

/-- Claim C9 (amended): the changelog-stop comparison strips the text up
to and including the first colon; the URL substitution removes the text
before the first colon and also deletes every remaining colon, which
agrees with first-colon stripping exactly when the version contains at
most one colon; on the claimed inputs 2:1.0-1 and 1.0-1 both strippings
yield 1.0-1, the stripped versions compare equal, and the full version
comparison still distinguishes the two strings. -/
theorem epoch_strip_amended :
    (∀ s : String, (chSplit ':' s.data).length ≤ 2 → urlStripEpoch s = stripEpochFirst s)
    ∧ stripEpochFirst "2:1.0-1" = "1.0-1"
    ∧ urlStripEpoch "2:1.0-1" = "1.0-1"
    ∧ stripEpochFirst "1.0-1" = "1.0-1"
    ∧ urlStripEpoch "1.0-1" = "1.0-1"
    ∧ debCompare (stripEpochFirst "2:1.0-1") (stripEpochFirst "1.0-1") = .eq
    ∧ debCompare "2:1.0-1" "1.0-1" = .gt := by
  refine ⟨?_, by decide, by decide, by decide, by decide, by decide, by decide⟩
  intro s h
  unfold urlStripEpoch stripEpochFirst
  cases hs : chSplit ':' s.data with
  | nil => rfl
  | cons a tl =>
    cases tl with
    | nil => rfl
    | cons b tl2 =>
      cases tl2 with
      | nil => rfl
      | cons c tl3 =>
        rw [hs] at h
        exact absurd h (by simp only [List.length_cons]; omega)

/-- Claim C9 witness: the agreement of the two strippings applied at the
claimed input. -/
theorem epoch_strip_amended_witness :
    urlStripEpoch "2:1.0-1" = stripEpochFirst "2:1.0-1" :=
  epoch_strip_amended.1 "2:1.0-1" (by decide)

/-- Claim C9 counterexample: on a version with two colons the URL
substitution stripping deletes the interior colon as well, so it is not
the removal of the text up to and including the first colon. -/
theorem epoch_strip_counterexample :
    urlStripEpoch "1:2:3-1" = "23-1"
    ∧ stripEpochFirst "1:2:3-1" = "2:3-1"
    ∧ urlStripEpoch "1:2:3-1" ≠ stripEpochFirst "1:2:3-1" := by decide

/-- Claim C10: with no installed version the read loop of get_changelog
never stops at a matched header line: every line of the stream is
accumulated until end of stream, and on a non-empty accumulation
get_changelog returns and memoizes exactly the concatenation of all
lines. -/
theorem changelog_no_installed_accumulates_all :
    (∀ (src : String) (ls : List String) (i : Nat),
        processLines src none (fun _ => false) i (ls.map NetLine.ok)
          = .ok (.acc (strConcat ls)))
    ∧ (∀ (t : Int) (src sv : String) (ls : List String), strConcat ls ≠ "" →
        get_changelog ⟨"", t⟩ true src sv none (fun _ => false)
            (.stream (ls.map NetLine.ok))
          = (.ok (strConcat ls), ⟨strConcat ls, t⟩)) := by
  have hloop : ∀ (src : String) (ls : List String) (i : Nat),
      processLines src none (fun _ => false) i (ls.map NetLine.ok)
        = .ok (.acc (strConcat ls)) := by
    intro src ls
    induction ls with
    | nil => intro i; rfl
    | cons l rest ih =>
      intro i
      cases hm : matchHeader src l with
      | some ver =>
        simp only [List.map_cons, processLines, hm]
        simp [stopCompare, ih (i + 1), prependLine, Except.map, strConcat]
      | none =>
        simp only [List.map_cons, processLines, hm]
        simp [ih (i + 1), prependLine, Except.map, strConcat]
  refine ⟨hloop, ?_⟩
  intro t src sv ls hne
  have hfetch : fetchChangelog src none (fun _ => false) (.stream (ls.map NetLine.ok))
      = .ok (.fetched (strConcat ls)) := by
    unfold fetchChangelog
    rw [if_neg (by simp)]
    show (processLines src none (fun _ => false) 1 (ls.map NetLine.ok)).map _ = _
    rw [hloop src ls 1]
    show Except.ok (FetchResult.fetched
        (if strConcat ls = "" then NOT_AVAILABLE_MSG else strConcat ls)) = _
    rw [if_neg hne]
  unfold get_changelog
  rw [if_neg (by simp), if_pos rfl, hfetch]
  rfl

/-- Claim C10 witness: a stream whose first line is a matching header is
still accumulated in full when no version is installed. -/
theorem changelog_no_installed_accumulates_all_witness :
    get_changelog ⟨"", 0⟩ true "foo" "1.0" none (fun _ => false)
        (.stream (["foo (9.9) unstable; urgency=low\n", " * only entry\n"].map NetLine.ok))
      = (.ok (strConcat ["foo (9.9) unstable; urgency=low\n", " * only entry\n"]),
         ⟨strConcat ["foo (9.9) unstable; urgency=low\n", " * only entry\n"], 0⟩) :=
  changelog_no_installed_accumulates_all.2 0 "foo" "1.0"
    ["foo (9.9) unstable; urgency=low\n", " * only entry\n"] (by decide)
